import Mathlib

/-!
# Dashboard polling shim (`app/static/js/dashboard.js`)

A shallow embedding of the two functions of the file:

* the anonymous `DOMContentLoaded` listener, which calls `updateDashboardData()` and then
  `setInterval(updateDashboardData, 30000)`;
* `updateDashboardData`, which writes one line to the console and calls the ambient
  `loadWatchedCoins` when `typeof loadWatchedCoins === 'function'`.

JavaScript statements become explicit state passing over a `World` (clock, chronological
event trace, timer table).  A statement that can throw returns a `Completion`.  The host
(event dispatch and the timer loop) is modelled next to the program so that statements about
whole page runs can be made; the host model is an ideal one: synchronous code takes no time
and a repeating timer fires exactly on its due instants.
-/

namespace Dashboard

/-! ## Values and the ambient binding of `loadWatchedCoins` -/

/-- Values that are not callable.  Numbers are kept abstract as integers: only the type tag
matters to `typeof`. -/
inductive Data
  | undefined
  | null
  | boolean (b : Bool)
  | number (n : Int)
  | string (s : String)
  | object (ref : Nat)
  deriving DecidableEq, Repr

/-- What can be thrown: the two built-in errors the evaluation of an identifier or of a call
can raise, or a value raised by external code. -/
inductive Thrown
  | referenceError (name : String)
  | typeError (name : String)
  | raised (value : Data)
  deriving DecidableEq, Repr

/-- Behaviour of an external function when it is called: its internals are outside the file, so
only the way the call completes is recorded. -/
inductive Outcome
  | returns (result : Data)
  | throws (error : Thrown)
  deriving DecidableEq, Repr

/-- JavaScript values: non-callable data, or a function together with its behaviour. -/
inductive JSValue
  | data (d : Data)
  | function (body : Outcome)
  deriving DecidableEq, Repr

/-- State of a global identifier: never declared, declared but still in its temporal dead zone
(a `let`/`const` whose initialiser has not run), or holding a value. -/
inductive Binding
  | undeclared
  | uninitialised
  | value (v : JSValue)
  deriving DecidableEq, Repr

/-- The part of the global environment the file reads. -/
structure Env where
  loadWatchedCoins : Binding
  deriving DecidableEq, Repr

/-- How a statement or a call finishes. -/
inductive Completion
  | normal
  | throw (error : Thrown)
  deriving DecidableEq, Repr

/-! ## Observable events, timers and the world -/

/-- The functions defined in `dashboard.js`. -/
inductive Fn
  | readyHandler
  | updateDashboardData
  deriving DecidableEq, Repr

/-- An entry of the host timer table. -/
structure Timer where
  callback : Fn
  delay : Nat
  due : Nat
  repeating : Bool
  deriving DecidableEq, Repr

/-- Observable events, in the order they happen.  The entries `enter` and `leave` are
bookkeeping: they mark that a function of the file started executing and that it returned
normally (a function that throws leaves no `leave`).  The others record what the code does to
its surroundings: a console line, a call of an ambient function with its argument list, a timer
registration, and an error reported by the host because no caller caught it. -/
inductive Event
  | enter (f : Fn)
  | leave (f : Fn)
  | log (msg : String)
  | call (callee : String) (args : List JSValue)
  | register (t : Timer)
  | uncaught (error : Thrown)
  deriving DecidableEq, Repr

/-- The host state: the clock in milliseconds, the events so far (each stamped with the clock)
and the active timers. -/
structure World where
  now : Nat
  trace : List (Nat × Event)
  timers : List Timer
  deriving DecidableEq, Repr

/-- Append one event, stamped with the current clock. -/
def emit (e : Event) (w : World) : World :=
  { w with trace := w.trace ++ [(w.now, e)] }

/-! ## Language primitives used by the file -/

/-- The `typeof` operator applied to an identifier: it yields `"undefined"` for an undeclared
name instead of throwing, and throws a `ReferenceError` only inside the temporal dead zone. -/
def typeOf (name : String) : Binding → Except Thrown String
  | .undeclared => .ok "undefined"
  | .uninitialised => .error (.referenceError name)
  | .value (.data .undefined) => .ok "undefined"
  | .value (.data .null) => .ok "object"
  | .value (.data (.boolean _)) => .ok "boolean"
  | .value (.data (.number _)) => .ok "number"
  | .value (.data (.string _)) => .ok "string"
  | .value (.data (.object _)) => .ok "object"
  | .value (.function _) => .ok "function"

/-- The call expression `name(args)` on an identifier: a `ReferenceError` when the name cannot
be read, a `TypeError` when its value is not callable; otherwise the call is recorded and
completes as the function behaves.  A returned value is dropped, as in an expression
statement. -/
def callGlobal (name : String) (b : Binding) (args : List JSValue) (w : World) :
    World × Completion :=
  match b with
  | .undeclared => (w, .throw (.referenceError name))
  | .uninitialised => (w, .throw (.referenceError name))
  | .value (.data _) => (w, .throw (.typeError name))
  | .value (.function body) =>
    let w1 := emit (.call name args) w
    match body with
    | .returns _ => (w1, .normal)
    | .throws e => (w1, .throw e)

/-- The host function `console.log(msg)`. -/
def consoleLog (msg : String) (w : World) : World :=
  emit (.log msg) w

/-- The host function `setInterval(callback, delay)`: adds a repeating timer whose first
firing is `delay` milliseconds from now. -/
def setInterval (callback : Fn) (delay : Nat) (w : World) : World :=
  let t : Timer := { callback := callback, delay := delay, due := w.now + delay, repeating := true }
  { emit (.register t) w with timers := w.timers ++ [t] }

/-! ## The two functions of `dashboard.js` -/

/-- Source function `updateDashboardData` (lines 11-19):
`console.log("Updating dashboard data...")`, then `loadWatchedCoins()` under the guard
`typeof loadWatchedCoins === 'function'`.  The function has no `try`, so a throw of the guard
or of the call is its own completion. -/
def updateDashboardData (env : Env) (w : World) : World × Completion :=
  let w0 := emit (.enter .updateDashboardData) w
  let w1 := consoleLog "Updating dashboard data..." w0
  match typeOf "loadWatchedCoins" env.loadWatchedCoins with
  | .error e => (w1, .throw e)
  | .ok ty =>
    if ty = "function" then
      match callGlobal "loadWatchedCoins" env.loadWatchedCoins [] w1 with
      | (w2, .throw e) => (w2, .throw e)
      | (w2, .normal) => (emit (.leave .updateDashboardData) w2, .normal)
    else
      (emit (.leave .updateDashboardData) w1, .normal)

/-- Source listener registered for `DOMContentLoaded` (lines 2-8):
`updateDashboardData(); setInterval(updateDashboardData, 30000);`.  The two statements are in
sequence with no `try`, so a throw of the first one skips the second. -/
def readyHandler (env : Env) (w : World) : World × Completion :=
  let w0 := emit (.enter .readyHandler) w
  match updateDashboardData env w0 with
  | (w1, .throw e) => (w1, .throw e)
  | (w1, .normal) =>
    let w2 := setInterval .updateDashboardData 30000 w1
    (emit (.leave .readyHandler) w2, .normal)

/-- Body of a function of the file, by name. -/
def runFn : Fn → Env → World → World × Completion
  | .readyHandler => readyHandler
  | .updateDashboardData => updateDashboardData

/-! ## The host: event dispatch and the timer loop -/

/-- A callback invoked by the host: an error it throws is reported, not propagated. -/
def hostInvoke (f : Fn) (env : Env) (w : World) : World :=
  match runFn f env w with
  | (w1, .normal) => w1
  | (w1, .throw e) => emit (.uncaught e) w1

/-- Position of the timer that is due first (the earliest registered one on a tie). -/
def earliest : List Timer → Option (Nat × Timer)
  | [] => none
  | t :: ts =>
    match earliest ts with
    | none => some (0, t)
    | some (i, u) => if u.due < t.due then some (i + 1, u) else some (0, t)

/-- Timer table after the timer at position `i` fired: a repeating timer is rescheduled one
period later, a one-shot timer is removed. -/
def reschedule (i : Nat) (t : Timer) (ts : List Timer) : List Timer :=
  if t.repeating then ts.set i { t with due := t.due + t.delay } else ts.eraseIdx i

/-- One firing: the clock jumps to the due instant and the callback runs in the environment
current at that instant. -/
def fire (envAt : Nat → Env) (i : Nat) (t : Timer) (w : World) : World :=
  hostInvoke t.callback (envAt t.due)
    { w with now := t.due, timers := reschedule i t w.timers }

/-- Timer loop up to and including the instant `horizon`, bounded by `fuel` firings. -/
def loop (envAt : Nat → Env) (horizon : Nat) : Nat → World → World
  | 0, w => w
  | fuel + 1, w =>
    match earliest w.timers with
    | none => w
    | some (i, t) => if t.due ≤ horizon then loop envAt horizon fuel (fire envAt i t w) else w

/-- A fresh page at the instant of the ready signal. -/
def freshWorld : World := { now := 0, trace := [], timers := [] }

/-- The page just after `DOMContentLoaded` was dispatched at `t = 0`. -/
def ready (envAt : Nat → Env) : World :=
  hostInvoke .readyHandler (envAt 0) freshWorld

/-- A page run: ready signal at `t = 0`, then the timer loop over the window `[0, horizon]`. -/
def page (envAt : Nat → Env) (horizon fuel : Nat) : World :=
  loop envAt horizon fuel (ready envAt)

/-! ## Projections of the trace -/

/-- Instants at which `updateDashboardData` started executing (the ticks). -/
def tickTimes (tr : List (Nat × Event)) : List Nat :=
  tr.filterMap fun p => if p.2 = Event.enter Fn.updateDashboardData then some p.1 else none

/-- Calls made to the global `name`: the instant and the argument list of each. -/
def callsTo (name : String) (tr : List (Nat × Event)) : List (Nat × List JSValue) :=
  tr.filterMap fun p =>
    match p.2 with
    | .call callee args => if callee = name then some (p.1, args) else none
    | _ => none

/-- Lines written to the console: the instant and the text of each. -/
def logLines (tr : List (Nat × Event)) : List (Nat × String) :=
  tr.filterMap fun p =>
    match p.2 with
    | .log msg => some (p.1, msg)
    | _ => none

/-- Timers registered: the instant and the timer of each registration. -/
def registrations (tr : List (Nat × Event)) : List (Nat × Timer) :=
  tr.filterMap fun p =>
    match p.2 with
    | .register t => some (p.1, t)
    | _ => none

/-- The capability is present when the guard of `updateDashboardData` lets the call through. -/
def present (env : Env) : Bool :=
  match env.loadWatchedCoins with
  | .value (.function _) => true
  | _ => false

/-- An environment that does not change over time. -/
def constEnv (env : Env) : Nat → Env := fun _ => env

/-- A loader that returns `undefined`. -/
def okLoader : Env := { loadWatchedCoins := .value (.function (.returns .undefined)) }

/-- A loader that throws the string `"boom"`. -/
def badLoader : Env := { loadWatchedCoins := .value (.function (.throws (.raised (.string "boom")))) }

/-- No loader at all. -/
def noLoader : Env := { loadWatchedCoins := .undeclared }

/-- A loader declared with `let`/`const`/`class` whose initialiser never ran. -/
def deadZoneLoader : Env := { loadWatchedCoins := .uninitialised }

/-- The name holds no value: it was never declared, or it is declared and not yet
initialised. -/
def hasNoValue (env : Env) : Bool :=
  match env.loadWatchedCoins with
  | .value _ => false
  | _ => true

/-! ## Derived descriptions of runs, used to state and prove the properties -/

/-- Events of a tick whose guard passes and whose loader returns. -/
def tickCalled (t : Nat) : List (Nat × Event) :=
  [(t, .enter .updateDashboardData), (t, .log "Updating dashboard data..."),
   (t, .call "loadWatchedCoins" []), (t, .leave .updateDashboardData)]

/-- Events of a tick whose guard passes and whose loader throws. -/
def tickAborted (t : Nat) : List (Nat × Event) :=
  [(t, .enter .updateDashboardData), (t, .log "Updating dashboard data..."),
   (t, .call "loadWatchedCoins" [])]

/-- Events of a tick whose guard fails. -/
def tickSkipped (t : Nat) : List (Nat × Event) :=
  [(t, .enter .updateDashboardData), (t, .log "Updating dashboard data..."),
   (t, .leave .updateDashboardData)]

/-- Events of a tick whose guard itself throws (temporal dead zone). -/
def tickDeadZone (t : Nat) : List (Nat × Event) :=
  [(t, .enter .updateDashboardData), (t, .log "Updating dashboard data...")]

/-- Events one tick appends at instant `t`, by the state of the binding. -/
def tickEvents (env : Env) (t : Nat) : List (Nat × Event) :=
  match env.loadWatchedCoins with
  | .value (.function (.returns _)) => tickCalled t
  | .value (.function (.throws _)) => tickAborted t
  | .uninitialised => tickDeadZone t
  | _ => tickSkipped t

/-- Completion of one tick, by the state of the binding. -/
def tickCompletion (env : Env) : Completion :=
  match env.loadWatchedCoins with
  | .value (.function (.throws e)) => .throw e
  | .uninitialised => .throw (.referenceError "loadWatchedCoins")
  | _ => .normal

/-- The timer the ready handler registers when it runs at instant `t`. -/
def pollTimer (t : Nat) : Timer :=
  { callback := .updateDashboardData, delay := 30000, due := t + 30000, repeating := true }

/-- Events of `m` consecutive polling ticks after the `k`-th period, each with a loader that
returns. -/
def pollTrace (k : Nat) : Nat → List (Nat × Event)
  | 0 => []
  | m + 1 => tickCalled (30000 * (k + 1)) ++ pollTrace (k + 1) m

/-- The loader is absent at the ready signal and defined from the next millisecond on. -/
def lateLoader : Nat → Env := fun t => if t = 0 then noLoader else okLoader


/-! ## What one execution of `updateDashboardData` appends to the trace -/

lemma tick_returns (env : Env) (w : World) (r : Data)
    (h : env.loadWatchedCoins = .value (.function (.returns r))) :
    updateDashboardData env w
      = ({ w with trace := w.trace ++ tickCalled w.now }, .normal) := by
  simp [updateDashboardData, h, typeOf, callGlobal, consoleLog, emit, tickCalled]

lemma tick_throws (env : Env) (w : World) (e : Thrown)
    (h : env.loadWatchedCoins = .value (.function (.throws e))) :
    updateDashboardData env w
      = ({ w with trace := w.trace ++ tickAborted w.now }, .throw e) := by
  simp [updateDashboardData, h, typeOf, callGlobal, consoleLog, emit, tickAborted]

lemma tick_data (env : Env) (w : World) (d : Data)
    (h : env.loadWatchedCoins = .value (.data d)) :
    updateDashboardData env w
      = ({ w with trace := w.trace ++ tickSkipped w.now }, .normal) := by
  cases d <;>
    simp [updateDashboardData, h, typeOf, consoleLog, emit, tickSkipped]

lemma tick_undeclared (env : Env) (w : World)
    (h : env.loadWatchedCoins = .undeclared) :
    updateDashboardData env w
      = ({ w with trace := w.trace ++ tickSkipped w.now }, .normal) := by
  simp [updateDashboardData, h, typeOf, consoleLog, emit, tickSkipped]

lemma tick_uninitialised (env : Env) (w : World)
    (h : env.loadWatchedCoins = .uninitialised) :
    updateDashboardData env w
      = ({ w with trace := w.trace ++ tickDeadZone w.now },
          .throw (.referenceError "loadWatchedCoins")) := by
  simp [updateDashboardData, h, typeOf, consoleLog, emit, tickDeadZone]

lemma tick_eq (env : Env) (w : World) :
    updateDashboardData env w
      = ({ w with trace := w.trace ++ tickEvents env w.now }, tickCompletion env) := by
  rcases env with ⟨b⟩
  rcases b with _ | _ | v
  · rw [tick_undeclared _ w rfl]; rfl
  · rw [tick_uninitialised _ w rfl]; rfl
  · rcases v with d | body
    · rw [tick_data _ w d rfl]; rfl
    · rcases body with r | e
      · rw [tick_returns _ w r rfl]; rfl
      · rw [tick_throws _ w e rfl]; rfl

lemma tickTimes_append (a b : List (Nat × Event)) :
    tickTimes (a ++ b) = tickTimes a ++ tickTimes b := by
  simp [tickTimes, List.filterMap_append]

lemma callsTo_append (name : String) (a b : List (Nat × Event)) :
    callsTo name (a ++ b) = callsTo name a ++ callsTo name b := by
  simp [callsTo, List.filterMap_append]

lemma logLines_append (a b : List (Nat × Event)) :
    logLines (a ++ b) = logLines a ++ logLines b := by
  simp [logLines, List.filterMap_append]

lemma registrations_append (a b : List (Nat × Event)) :
    registrations (a ++ b) = registrations a ++ registrations b := by
  simp [registrations, List.filterMap_append]

lemma tickTimes_tickEvents (env : Env) (t : Nat) : tickTimes (tickEvents env t) = [t] := by
  rcases env with ⟨b⟩
  rcases b with _ | _ | v
  · simp [tickEvents, tickSkipped, tickTimes]
  · simp [tickEvents, tickDeadZone, tickTimes]
  · rcases v with d | body
    · simp [tickEvents, tickSkipped, tickTimes]
    · rcases body with r | e
      · simp [tickEvents, tickCalled, tickTimes]
      · simp [tickEvents, tickAborted, tickTimes]

lemma logLines_tickEvents (env : Env) (t : Nat) :
    logLines (tickEvents env t) = [(t, "Updating dashboard data...")] := by
  rcases env with ⟨b⟩
  rcases b with _ | _ | v
  · simp [tickEvents, tickSkipped, logLines]
  · simp [tickEvents, tickDeadZone, logLines]
  · rcases v with d | body
    · simp [tickEvents, tickSkipped, logLines]
    · rcases body with r | e
      · simp [tickEvents, tickCalled, logLines]
      · simp [tickEvents, tickAborted, logLines]

lemma registrations_tickEvents (env : Env) (t : Nat) :
    registrations (tickEvents env t) = [] := by
  rcases env with ⟨b⟩
  rcases b with _ | _ | v
  · simp [tickEvents, tickSkipped, registrations]
  · simp [tickEvents, tickDeadZone, registrations]
  · rcases v with d | body
    · simp [tickEvents, tickSkipped, registrations]
    · rcases body with r | e
      · simp [tickEvents, tickCalled, registrations]
      · simp [tickEvents, tickAborted, registrations]

lemma callsTo_tickEvents (env : Env) (t : Nat) :
    callsTo "loadWatchedCoins" (tickEvents env t) = if present env then [(t, [])] else [] := by
  rcases env with ⟨b⟩
  rcases b with _ | _ | v
  · simp [tickEvents, tickSkipped, callsTo, present]
  · simp [tickEvents, tickDeadZone, callsTo, present]
  · rcases v with d | body
    · simp [tickEvents, tickSkipped, callsTo, present]
    · rcases body with r | e
      · simp [tickEvents, tickCalled, callsTo, present]
      · simp [tickEvents, tickAborted, callsTo, present]

lemma enter_mem_tickEvents (env : Env) (t : Nat) :
    (t, Event.enter Fn.updateDashboardData) ∈ tickEvents env t := by
  rcases env with ⟨b⟩
  rcases b with _ | _ | v
  · simp [tickEvents, tickSkipped]
  · simp [tickEvents, tickDeadZone]
  · rcases v with d | body
    · simp [tickEvents, tickSkipped]
    · rcases body with r | e
      · simp [tickEvents, tickCalled]
      · simp [tickEvents, tickAborted]

lemma leave_mem_tickEvents (env : Env) (t : Nat) (h : tickCompletion env = .normal) :
    (t, Event.leave Fn.updateDashboardData) ∈ tickEvents env t := by
  rcases env with ⟨b⟩
  rcases b with _ | _ | v
  · simp [tickEvents, tickSkipped]
  · simp [tickCompletion] at h
  · rcases v with d | body
    · simp [tickEvents, tickSkipped]
    · rcases body with r | e
      · simp [tickEvents, tickCalled]
      · simp [tickCompletion] at h

lemma readyHandler_normal (env : Env) (w : World) (h : tickCompletion env = .normal) :
    readyHandler env w
      = ({ now := w.now,
           trace := w.trace ++ ((w.now, .enter .readyHandler) :: tickEvents env w.now
                      ++ [(w.now, .register (pollTimer w.now)), (w.now, .leave .readyHandler)]),
           timers := w.timers ++ [pollTimer w.now] }, .normal) := by
  simp [readyHandler, tick_eq, h, setInterval, emit, pollTimer]

lemma readyHandler_throw (env : Env) (w : World) (e : Thrown)
    (h : tickCompletion env = .throw e) :
    readyHandler env w
      = ({ w with trace := w.trace ++ ((w.now, .enter .readyHandler) :: tickEvents env w.now) },
          .throw e) := by
  simp [readyHandler, tick_eq, h, emit]

/-! ## The timer loop -/

lemma loop_no_timers (envAt : Nat → Env) (horizon fuel : Nat) (w : World)
    (h : w.timers = []) : loop envAt horizon fuel w = w := by
  cases fuel with
  | zero => rfl
  | succ f => simp [loop, h, earliest]

lemma earliest_mem : ∀ (ts : List Timer) (i : Nat) (t : Timer),
    earliest ts = some (i, t) → t ∈ ts := by
  intro ts
  induction ts with
  | nil => intro i t h; simp [earliest] at h
  | cons a ts ih =>
    intro i t h
    simp only [earliest] at h
    cases hts : earliest ts with
    | none =>
      rw [hts] at h
      simp at h
      simp [h.2]
    | some q =>
      rcases q with ⟨j, u⟩
      rw [hts] at h
      by_cases hlt : u.due < a.due
      · simp [hlt] at h
        have := ih j u hts
        rw [← h.2]
        exact List.mem_cons_of_mem _ this
      · simp [hlt] at h
        simp [h.2]

lemma mem_reschedule (i : Nat) (t : Timer) (ts : List Timer) (u : Timer)
    (h : u ∈ reschedule i t ts) : u ∈ ts ∨ u.due = t.due + t.delay := by
  unfold reschedule at h
  by_cases hr : t.repeating = true
  · rw [if_pos hr] at h
    rcases List.mem_or_eq_of_mem_set h with h1 | h1
    · exact Or.inl h1
    · exact Or.inr (by rw [h1])
  · rw [if_neg hr] at h
    exact Or.inl (List.mem_of_mem_eraseIdx h)

lemma stamp_tickEvents (env : Env) (t : Nat) :
    ∀ p ∈ tickEvents env t, p.1 = t := by
  intro p hp
  rcases env with ⟨b⟩
  rcases b with _ | _ | v
  · simp [tickEvents, tickSkipped] at hp; rcases hp with h | h | h <;> simp [h]
  · simp [tickEvents, tickDeadZone] at hp; rcases hp with h | h <;> simp [h]
  · rcases v with d | body
    · simp [tickEvents, tickSkipped] at hp; rcases hp with h | h | h <;> simp [h]
    · rcases body with r | e
      · simp [tickEvents, tickCalled] at hp; rcases hp with h | h | h | h <;> simp [h]
      · simp [tickEvents, tickAborted] at hp; rcases hp with h | h | h <;> simp [h]

lemma hostInvoke_spec (f : Fn) (env : Env) (w : World) :
    ∃ evs, (hostInvoke f env w).trace = w.trace ++ evs ∧ (∀ p ∈ evs, p.1 = w.now) ∧
      (hostInvoke f env w).now = w.now ∧
      ∀ t ∈ (hostInvoke f env w).timers, t ∈ w.timers ∨ w.now ≤ t.due := by
  cases f with
  | updateDashboardData =>
    cases hc : tickCompletion env with
    | normal =>
      refine ⟨tickEvents env w.now, ?_, stamp_tickEvents env w.now, ?_, ?_⟩
      · simp [hostInvoke, runFn, tick_eq, hc]
      · simp [hostInvoke, runFn, tick_eq, hc]
      · intro t ht
        simp [hostInvoke, runFn, tick_eq, hc] at ht
        exact Or.inl ht
    | throw e =>
      refine ⟨tickEvents env w.now ++ [(w.now, .uncaught e)], ?_, ?_, ?_, ?_⟩
      · simp [hostInvoke, runFn, tick_eq, hc, emit]
      · intro p hp
        rcases List.mem_append.mp hp with h | h
        · exact stamp_tickEvents env w.now p h
        · simp at h; simp [h]
      · simp [hostInvoke, runFn, tick_eq, hc, emit]
      · intro t ht
        simp [hostInvoke, runFn, tick_eq, hc, emit] at ht
        exact Or.inl ht
  | readyHandler =>
    cases hc : tickCompletion env with
    | normal =>
      refine ⟨(w.now, .enter .readyHandler) :: tickEvents env w.now
          ++ [(w.now, .register (pollTimer w.now)), (w.now, .leave .readyHandler)], ?_, ?_, ?_, ?_⟩
      · simp [hostInvoke, runFn, readyHandler_normal env w hc]
      · intro p hp
        simp only [List.cons_append, List.mem_cons, List.mem_append, List.mem_singleton,
          List.not_mem_nil, or_false] at hp
        rcases hp with h | h | h | h
        · simp [h]
        · exact stamp_tickEvents env w.now p h
        · simp [h]
        · simp [h]
      · simp [hostInvoke, runFn, readyHandler_normal env w hc]
      · intro t ht
        simp [hostInvoke, runFn, readyHandler_normal env w hc] at ht
        rcases ht with h | h
        · exact Or.inl h
        · exact Or.inr (by simp [h, pollTimer])
    | throw e =>
      refine ⟨(w.now, .enter .readyHandler) :: tickEvents env w.now
          ++ [(w.now, .uncaught e)], ?_, ?_, ?_, ?_⟩
      · simp [hostInvoke, runFn, readyHandler_throw env w e hc, emit]
      · intro p hp
        simp only [List.cons_append, List.mem_cons, List.mem_append, List.mem_singleton,
          List.not_mem_nil, or_false] at hp
        rcases hp with h | h | h
        · simp [h]
        · exact stamp_tickEvents env w.now p h
        · simp [h]
      · simp [hostInvoke, runFn, readyHandler_throw env w e hc, emit]
      · intro t ht
        simp [hostInvoke, runFn, readyHandler_throw env w e hc, emit] at ht
        exact Or.inl ht

lemma loop_extends (envAt : Nat → Env) (horizon bound : Nat) :
    ∀ (fuel : Nat) (w : World), (∀ t ∈ w.timers, bound ≤ t.due) →
      ∃ rest, (loop envAt horizon fuel w).trace = w.trace ++ rest ∧ ∀ p ∈ rest, bound ≤ p.1 := by
  intro fuel
  induction fuel with
  | zero => intro w _; exact ⟨[], by simp [loop], by simp⟩
  | succ f ih =>
    intro w hw
    cases he : earliest w.timers with
    | none => exact ⟨[], by simp [loop, he], by simp⟩
    | some q =>
      rcases q with ⟨i, t⟩
      by_cases hd : t.due ≤ horizon
      · have htm : t ∈ w.timers := earliest_mem _ i t he
        have hb : bound ≤ t.due := hw t htm
        obtain ⟨evs, h1, h2, h3, h4⟩ := hostInvoke_spec t.callback (envAt t.due)
          { w with now := t.due, timers := reschedule i t w.timers }
        have hinv : ∀ u ∈ (fire envAt i t w).timers, bound ≤ u.due := by
          intro u hu
          rcases h4 u hu with h | h
          · rcases mem_reschedule i t w.timers u h with h5 | h5
            · exact hw u h5
            · rw [h5]; exact Nat.le_trans hb (Nat.le_add_right _ _)
          · exact Nat.le_trans hb h
        obtain ⟨rest, hr1, hr2⟩ := ih (fire envAt i t w) hinv
        refine ⟨evs ++ rest, ?_, ?_⟩
        · simp only [loop, he, hd, if_true]
          rw [hr1]
          show (hostInvoke t.callback (envAt t.due) _).trace ++ rest = _
          rw [h1]; simp
        · intro p hp
          rcases List.mem_append.mp hp with h | h
          · rw [h2 p h]; exact hb
          · exact hr2 p h
      · exact ⟨[], by simp [loop, he, hd], by simp⟩

lemma hostInvoke_ticks (f : Fn) (env : Env) (w : World) :
    tickTimes (hostInvoke f env w).trace = tickTimes w.trace ++ [w.now] ∧
      callsTo "loadWatchedCoins" (hostInvoke f env w).trace
        = callsTo "loadWatchedCoins" w.trace ++ (if present env then [(w.now, [])] else []) := by
  cases f with
  | updateDashboardData =>
    cases hc : tickCompletion env with
    | normal =>
      simp [hostInvoke, runFn, tick_eq, hc, tickTimes_append, callsTo_append,
        tickTimes_tickEvents, callsTo_tickEvents]
    | throw e =>
      simp [hostInvoke, runFn, tick_eq, hc, emit, tickTimes_append, callsTo_append,
        tickTimes_tickEvents, callsTo_tickEvents]
      simp [tickTimes, callsTo]
  | readyHandler =>
    cases hc : tickCompletion env with
    | normal =>
      rw [show hostInvoke .readyHandler env w = (readyHandler env w).1 by
        simp [hostInvoke, runFn, readyHandler_normal env w hc]]
      rw [readyHandler_normal env w hc]
      simp only [tickTimes_append, callsTo_append, List.cons_append]
      rw [show ((w.now, Event.enter Fn.readyHandler) :: (tickEvents env w.now ++
            [(w.now, Event.register (pollTimer w.now)), (w.now, Event.leave Fn.readyHandler)]))
          = [(w.now, Event.enter Fn.readyHandler)] ++ (tickEvents env w.now ++
            [(w.now, Event.register (pollTimer w.now)), (w.now, Event.leave Fn.readyHandler)])
          from rfl]
      simp only [tickTimes_append, callsTo_append, tickTimes_tickEvents, callsTo_tickEvents]
      simp [tickTimes, callsTo]
    | throw e =>
      rw [show hostInvoke .readyHandler env w = emit (.uncaught e) (readyHandler env w).1 by
        simp [hostInvoke, runFn, readyHandler_throw env w e hc]]
      rw [readyHandler_throw env w e hc]
      simp only [emit, tickTimes_append, callsTo_append]
      rw [show ((w.now, Event.enter Fn.readyHandler) :: tickEvents env w.now)
          = [(w.now, Event.enter Fn.readyHandler)] ++ tickEvents env w.now from rfl]
      simp only [tickTimes_append, callsTo_append, tickTimes_tickEvents, callsTo_tickEvents]
      simp [tickTimes, callsTo]

lemma loop_calls (envAt : Nat → Env) (horizon : Nat) :
    ∀ (fuel : Nat) (w : World),
      callsTo "loadWatchedCoins" w.trace
        = ((tickTimes w.trace).filter fun t => present (envAt t)).map (fun t => (t, [])) →
      callsTo "loadWatchedCoins" (loop envAt horizon fuel w).trace
        = ((tickTimes (loop envAt horizon fuel w).trace).filter fun t => present (envAt t)).map
            (fun t => (t, [])) := by
  intro fuel
  induction fuel with
  | zero => intro w hw; simpa [loop] using hw
  | succ f ih =>
    intro w hw
    cases he : earliest w.timers with
    | none => simpa [loop, he] using hw
    | some q =>
      rcases q with ⟨i, t⟩
      by_cases hd : t.due ≤ horizon
      · simp only [loop, he, hd, if_true]
        apply ih
        obtain ⟨h1, h2⟩ := hostInvoke_ticks t.callback (envAt t.due)
          { w with now := t.due, timers := reschedule i t w.timers }
        show callsTo "loadWatchedCoins" (hostInvoke t.callback (envAt t.due) _).trace
          = ((tickTimes (hostInvoke t.callback (envAt t.due) _).trace).filter _).map _
        rw [h1, h2]
        simp only [List.filter_append, List.map_append]
        rw [hw]
        by_cases hp : present (envAt t.due) = true
        · simp [hp]
        · simp [hp]
      · simpa [loop, he, hd] using hw

lemma fire_poll (envAt : Nat → Env) (d now : Nat) (tr : List (Nat × Event)) (r : Data)
    (h : (envAt d).loadWatchedCoins = .value (.function (.returns r))) :
    fire envAt 0 { callback := .updateDashboardData, delay := 30000, due := d, repeating := true }
        { now := now, trace := tr,
          timers := [{ callback := .updateDashboardData, delay := 30000, due := d,
                       repeating := true }] }
      = { now := d, trace := tr ++ tickCalled d,
          timers := [{ callback := .updateDashboardData, delay := 30000, due := d + 30000,
                       repeating := true }] } := by
  simp [fire, hostInvoke, runFn, tick_returns _ _ r h, reschedule]

lemma loop_poll (envAt : Nat → Env)
    (hp : ∀ t, ∃ r, (envAt t).loadWatchedCoins = .value (.function (.returns r))) :
    ∀ (m k fuel now : Nat) (tr : List (Nat × Event)), m ≤ fuel →
      (loop envAt (30000 * (k + m)) fuel
        { now := now, trace := tr,
          timers := [{ callback := .updateDashboardData, delay := 30000,
                       due := 30000 * (k + 1), repeating := true }] }).trace
        = tr ++ pollTrace k m := by
  intro m
  induction m with
  | zero =>
    intro k fuel now tr _
    cases fuel with
    | zero => simp [loop, pollTrace]
    | succ f =>
      have : ¬ (30000 * (k + 1) ≤ 30000 * k) := by omega
      simp [loop, earliest, pollTrace, this]
  | succ m ih =>
    intro k fuel now tr hf
    cases fuel with
    | zero => omega
    | succ f =>
      have hd : 30000 * (k + 1) ≤ 30000 * (k + (m + 1)) := by omega
      obtain ⟨r, hr⟩ := hp (30000 * (k + 1))
      simp only [loop, earliest, hd, if_true]
      rw [fire_poll envAt _ now tr r hr]
      have e1 : 30000 * (k + (m + 1)) = 30000 * (k + 1 + m) := by ring
      have e2 : 30000 * (k + 1) + 30000 = 30000 * (k + 1 + 1) := by ring
      rw [e1, e2, ih (k + 1) f _ _ (by omega)]
      simp [pollTrace]

lemma tickTimes_pollTrace : ∀ (m k : Nat),
    tickTimes (pollTrace k m) = (List.range m).map fun j => 30000 * (k + 1 + j) := by
  intro m
  induction m with
  | zero => intro k; simp [pollTrace, tickTimes]
  | succ m ih =>
    intro k
    rw [pollTrace, tickTimes_append, ih (k + 1), List.range_succ_eq_map]
    simp [tickTimes, tickCalled, List.map_map, Function.comp_def]
    intro a _
    ring

lemma callsTo_pollTrace : ∀ (m k : Nat),
    callsTo "loadWatchedCoins" (pollTrace k m)
      = (List.range m).map fun j => (30000 * (k + 1 + j), ([] : List JSValue)) := by
  intro m
  induction m with
  | zero => intro k; simp [pollTrace, callsTo]
  | succ m ih =>
    intro k
    rw [pollTrace, callsTo_append, ih (k + 1), List.range_succ_eq_map]
    simp [callsTo, tickCalled, List.map_map, Function.comp_def]
    intro a _
    ring

lemma logLines_pollTrace : ∀ (m k : Nat),
    logLines (pollTrace k m)
      = (List.range m).map fun j => (30000 * (k + 1 + j), "Updating dashboard data...") := by
  intro m
  induction m with
  | zero => intro k; simp [pollTrace, logLines]
  | succ m ih =>
    intro k
    rw [pollTrace, logLines_append, ih (k + 1), List.range_succ_eq_map]
    simp [logLines, tickCalled, List.map_map, Function.comp_def]
    intro a _
    ring

lemma ready_returns (envAt : Nat → Env) (r : Data)
    (h : (envAt 0).loadWatchedCoins = .value (.function (.returns r))) :
    ready envAt
      = { now := 0,
          trace := (0, .enter .readyHandler) :: tickCalled 0
                      ++ [(0, .register (pollTimer 0)), (0, .leave .readyHandler)],
          timers := [pollTimer 0] } := by
  have hc : tickCompletion (envAt 0) = .normal := by simp [tickCompletion, h]
  simp [ready, hostInvoke, runFn, readyHandler_normal _ _ hc, freshWorld, tickEvents, h]

/-! ## Claims about one tick -/

/-- C1: when `loadWatchedCoins` is bound to a function that returns normally, one tick records
exactly one new call to it, that call carries the empty argument list, and the tick itself
returns normally. -/
theorem tick_calls_loader_once_without_arguments (env : Env) (w : World) (r : Data)
    (h : env.loadWatchedCoins = .value (.function (.returns r))) :
    callsTo "loadWatchedCoins" (updateDashboardData env w).1.trace
        = callsTo "loadWatchedCoins" w.trace ++ [(w.now, [])] ∧
      (updateDashboardData env w).2 = .normal := by
  rw [tick_returns env w r h]
  simp [callsTo, tickCalled, List.filterMap_append]

theorem tick_calls_loader_once_without_arguments_witness :
    okLoader.loadWatchedCoins = .value (.function (.returns .undefined)) ∧
      callsTo "loadWatchedCoins" (updateDashboardData okLoader freshWorld).1.trace
        = callsTo "loadWatchedCoins" freshWorld.trace ++ [(freshWorld.now, [])] ∧
      (updateDashboardData okLoader freshWorld).2 = .normal :=
  ⟨rfl, tick_calls_loader_once_without_arguments okLoader freshWorld .undefined rfl⟩

/-- C2 (as amended): when `typeof loadWatchedCoins` evaluates to `"undefined"` (the name is
undeclared, or it holds `undefined`), one tick completes normally and records no call to
`loadWatchedCoins`. -/
theorem tick_with_undefined_loader_completes_and_calls_nothing (env : Env) (w : World)
    (h : typeOf "loadWatchedCoins" env.loadWatchedCoins = .ok "undefined") :
    (updateDashboardData env w).2 = .normal ∧
      callsTo "loadWatchedCoins" (updateDashboardData env w).1.trace
        = callsTo "loadWatchedCoins" w.trace := by
  rcases env with ⟨b⟩
  rcases b with _ | _ | v
  · rw [tick_undeclared _ w rfl]
    simp [callsTo, tickSkipped, List.filterMap_append]
  · simp [typeOf] at h
  · rcases v with d | body
    · rw [tick_data _ w d rfl]
      simp [callsTo, tickSkipped, List.filterMap_append]
    · simp [typeOf] at h

theorem tick_with_undefined_loader_completes_and_calls_nothing_witness :
    typeOf "loadWatchedCoins" noLoader.loadWatchedCoins = .ok "undefined" ∧
      (updateDashboardData noLoader freshWorld).2 = .normal ∧
      callsTo "loadWatchedCoins" (updateDashboardData noLoader freshWorld).1.trace
        = callsTo "loadWatchedCoins" freshWorld.trace :=
  ⟨rfl, tick_with_undefined_loader_completes_and_calls_nothing noLoader freshWorld rfl⟩

/-- C2 (as stated) fails: a `loadWatchedCoins` that is declared but still uninitialised holds no
value, yet the tick does not complete normally: the `typeof` guard throws a `ReferenceError`,
which the tick propagates. -/
theorem tick_in_dead_zone_throws :
    hasNoValue deadZoneLoader = true ∧
      (updateDashboardData deadZoneLoader freshWorld).2
        = .throw (.referenceError "loadWatchedCoins") ∧
      (updateDashboardData deadZoneLoader freshWorld).2 ≠ .normal := by
  decide

/-- C3: in every environment one tick appends exactly one line to the console, and that line is
"Updating dashboard data...". -/
theorem tick_logs_exactly_one_line (env : Env) (w : World) :
    logLines (updateDashboardData env w).1.trace
      = logLines w.trace ++ [(w.now, "Updating dashboard data...")] := by
  rcases env with ⟨b⟩
  rcases b with _ | _ | v
  · rw [tick_undeclared _ w rfl]
    simp [logLines, tickSkipped, List.filterMap_append]
  · rw [tick_uninitialised _ w rfl]
    simp [logLines, tickDeadZone, List.filterMap_append]
  · rcases v with d | body
    · rw [tick_data _ w d rfl]
      simp [logLines, tickSkipped, List.filterMap_append]
    · rcases body with r | e
      · rw [tick_returns _ w r rfl]
        simp [logLines, tickCalled, List.filterMap_append]
      · rw [tick_throws _ w e rfl]
        simp [logLines, tickAborted, List.filterMap_append]

/-- C7: when `loadWatchedCoins` is a function that throws `e`, one tick completes by throwing
that same `e`; what it appends to the trace is its entry, its single console line and the
call, with no report of the error and no further console line. -/
theorem tick_propagates_loader_error (env : Env) (w : World) (e : Thrown)
    (h : env.loadWatchedCoins = .value (.function (.throws e))) :
    (updateDashboardData env w).2 = .throw e ∧
      (updateDashboardData env w).1.trace
        = w.trace ++ [(w.now, .enter .updateDashboardData),
                      (w.now, .log "Updating dashboard data..."),
                      (w.now, .call "loadWatchedCoins" [])] ∧
      logLines (updateDashboardData env w).1.trace
        = logLines w.trace ++ [(w.now, "Updating dashboard data...")] := by
  rw [tick_throws env w e h]
  simp [logLines, tickAborted, List.filterMap_append]

theorem tick_propagates_loader_error_witness :
    badLoader.loadWatchedCoins = .value (.function (.throws (.raised (.string "boom")))) ∧
      (updateDashboardData badLoader freshWorld).2 = .throw (.raised (.string "boom")) ∧
      (updateDashboardData badLoader freshWorld).1.trace
        = freshWorld.trace ++ [(freshWorld.now, .enter .updateDashboardData),
                      (freshWorld.now, .log "Updating dashboard data..."),
                      (freshWorld.now, .call "loadWatchedCoins" [])] ∧
      logLines (updateDashboardData badLoader freshWorld).1.trace
        = logLines freshWorld.trace ++ [(freshWorld.now, "Updating dashboard data...")] :=
  ⟨rfl, tick_propagates_loader_error badLoader freshWorld _ rfl⟩

/-- C10: when `loadWatchedCoins` is bound to a value that is not a function, one tick returns
normally, records no call, and appends exactly its one console line. -/
theorem tick_skips_non_function_binding (env : Env) (w : World) (d : Data)
    (h : env.loadWatchedCoins = .value (.data d)) :
    (updateDashboardData env w).2 = .normal ∧
      callsTo "loadWatchedCoins" (updateDashboardData env w).1.trace
        = callsTo "loadWatchedCoins" w.trace ∧
      logLines (updateDashboardData env w).1.trace
        = logLines w.trace ++ [(w.now, "Updating dashboard data...")] ∧
      (updateDashboardData env w).1.trace
        = w.trace ++ [(w.now, .enter .updateDashboardData),
                      (w.now, .log "Updating dashboard data..."),
                      (w.now, .leave .updateDashboardData)] := by
  rw [tick_data env w d h]
  simp [callsTo, logLines, tickSkipped, List.filterMap_append]

theorem tick_skips_non_function_binding_witness :
    (Env.mk (.value (.data (.number 7)))).loadWatchedCoins = .value (.data (.number 7)) ∧
      (updateDashboardData ⟨.value (.data (.number 7))⟩ freshWorld).2 = .normal ∧
      callsTo "loadWatchedCoins" (updateDashboardData ⟨.value (.data (.number 7))⟩ freshWorld).1.trace
        = callsTo "loadWatchedCoins" freshWorld.trace ∧
      logLines (updateDashboardData ⟨.value (.data (.number 7))⟩ freshWorld).1.trace
        = logLines freshWorld.trace ++ [(freshWorld.now, "Updating dashboard data...")] ∧
      (updateDashboardData ⟨.value (.data (.number 7))⟩ freshWorld).1.trace
        = freshWorld.trace ++ [(freshWorld.now, .enter .updateDashboardData),
                      (freshWorld.now, .log "Updating dashboard data..."),
                      (freshWorld.now, .leave .updateDashboardData)] :=
  ⟨rfl, tick_skips_non_function_binding ⟨.value (.data (.number 7))⟩ freshWorld (.number 7) rfl⟩

/-! ## Claims about the ready handler and whole page runs -/

/-- C4: the ready handler executes `updateDashboardData` exactly once; whenever it registers
the timer, the entry and the normal return of that execution precede the registration in the
trace and no tick follows it inside the handler; and in a page run every event after the
handler (so every timer-driven tick) is stamped at least 30000 ms later. -/
theorem ready_handler_ticks_once_before_timer (env : Env) (w : World) :
    tickTimes (readyHandler env w).1.trace = tickTimes w.trace ++ [w.now] ∧
      (registrations (readyHandler env w).1.trace = registrations w.trace ∨
        ∃ pre post,
          (readyHandler env w).1.trace
            = w.trace ++ pre ++ (w.now, .register (pollTimer w.now)) :: post ∧
          (w.now, Event.enter Fn.updateDashboardData) ∈ pre ∧
          (w.now, Event.leave Fn.updateDashboardData) ∈ pre ∧
          tickTimes pre = [w.now] ∧ registrations pre = [] ∧
          tickTimes post = [] ∧ registrations post = []) ∧
      ∀ (envAt : Nat → Env) (horizon fuel : Nat),
        ∃ rest, (page envAt horizon fuel).trace = (ready envAt).trace ++ rest ∧
          (∀ p ∈ rest, 30000 ≤ p.1) ∧
          tickTimes (ready envAt).trace = [0] := by
  refine ⟨?_, ?_, ?_⟩
  · have h := (hostInvoke_ticks .readyHandler env w).1
    cases hc : tickCompletion env with
    | normal =>
      rw [show hostInvoke .readyHandler env w = (readyHandler env w).1 by
        simp [hostInvoke, runFn, readyHandler_normal env w hc]] at h
      exact h
    | throw e =>
      rw [show hostInvoke .readyHandler env w = emit (.uncaught e) (readyHandler env w).1 by
        simp [hostInvoke, runFn, readyHandler_throw env w e hc]] at h
      simpa [emit, tickTimes_append, tickTimes] using h
  · cases hc : tickCompletion env with
    | normal =>
      right
      refine ⟨(w.now, .enter .readyHandler) :: tickEvents env w.now,
        [(w.now, .leave .readyHandler)], ?_, ?_, ?_, ?_, ?_, ?_, ?_⟩
      · rw [readyHandler_normal env w hc]; simp
      · exact List.mem_cons_of_mem _ (enter_mem_tickEvents env w.now)
      · exact List.mem_cons_of_mem _ (leave_mem_tickEvents env w.now hc)
      · rw [show ((w.now, Event.enter Fn.readyHandler) :: tickEvents env w.now)
          = [(w.now, Event.enter Fn.readyHandler)] ++ tickEvents env w.now from rfl,
          tickTimes_append, tickTimes_tickEvents]
        simp [tickTimes]
      · rw [show ((w.now, Event.enter Fn.readyHandler) :: tickEvents env w.now)
          = [(w.now, Event.enter Fn.readyHandler)] ++ tickEvents env w.now from rfl,
          registrations_append, registrations_tickEvents]
        simp [registrations]
      · simp [tickTimes]
      · simp [registrations]
    | throw e =>
      left
      rw [readyHandler_throw env w e hc]
      rw [show ((w.now, Event.enter Fn.readyHandler) :: tickEvents env w.now)
          = [(w.now, Event.enter Fn.readyHandler)] ++ tickEvents env w.now from rfl]
      simp only [registrations_append, registrations_tickEvents]
      simp [registrations]
  · intro envAt horizon fuel
    have hinv : ∀ t ∈ (ready envAt).timers, 30000 ≤ t.due := by
      intro t ht
      cases hc : tickCompletion (envAt 0) with
      | normal =>
        simp [ready, hostInvoke, runFn, readyHandler_normal _ _ hc, freshWorld] at ht
        simp [ht, pollTimer]
      | throw e =>
        simp [ready, hostInvoke, runFn, readyHandler_throw _ _ e hc, freshWorld, emit] at ht
    obtain ⟨rest, h1, h2⟩ := loop_extends envAt horizon 30000 fuel (ready envAt) hinv
    refine ⟨rest, h1, h2, ?_⟩
    have h := (hostInvoke_ticks .readyHandler (envAt 0) freshWorld).1
    simpa [ready, freshWorld, tickTimes] using h

/-- C5: when the initial tick of the ready handler returns normally, the handler returns
normally and adds exactly one entry to the timer table and one registration to the trace: a
repeating timer with delay 30000 ms whose callback is `updateDashboardData`. -/
theorem ready_handler_registers_one_repeating_timer (env : Env) (w : World)
    (h : (updateDashboardData env (emit (.enter .readyHandler) w)).2 = .normal) :
    (readyHandler env w).2 = .normal ∧
      (readyHandler env w).1.timers
        = w.timers ++ [{ callback := .updateDashboardData, delay := 30000,
                         due := w.now + 30000, repeating := true }] ∧
      registrations (readyHandler env w).1.trace
        = registrations w.trace ++
            [(w.now, { callback := .updateDashboardData, delay := 30000,
                       due := w.now + 30000, repeating := true })] := by
  have hc : tickCompletion env = .normal := by rw [tick_eq] at h; exact h
  rw [readyHandler_normal env w hc]
  refine ⟨rfl, rfl, ?_⟩
  rw [show ((w.now, Event.enter Fn.readyHandler) :: tickEvents env w.now ++
        [(w.now, Event.register (pollTimer w.now)), (w.now, Event.leave Fn.readyHandler)])
      = [(w.now, Event.enter Fn.readyHandler)] ++ (tickEvents env w.now ++
        [(w.now, Event.register (pollTimer w.now)), (w.now, Event.leave Fn.readyHandler)])
      from rfl]
  simp only [registrations_append, registrations_tickEvents]
  simp [registrations, pollTimer]

theorem ready_handler_registers_one_repeating_timer_witness :
    (updateDashboardData okLoader (emit (.enter .readyHandler) freshWorld)).2 = .normal ∧
      (readyHandler okLoader freshWorld).2 = .normal ∧
      (readyHandler okLoader freshWorld).1.timers
        = freshWorld.timers ++
            [{ callback := .updateDashboardData, delay := 30000,
               due := freshWorld.now + 30000, repeating := true }] ∧
      registrations (readyHandler okLoader freshWorld).1.trace
        = registrations freshWorld.trace ++
            [(freshWorld.now,
              { callback := .updateDashboardData, delay := 30000,
                due := freshWorld.now + 30000, repeating := true })] :=
  ⟨by decide, ready_handler_registers_one_repeating_timer okLoader freshWorld (by decide)⟩

/-- C6: with the ready signal at `t = 0`, an ideal timer and a loader that is present and
returns at every instant, the page run over the window `[0, 30000 * n]` (with at least `n`
units of fuel) has its ticks exactly at `0, 30000, ..., 30000 * n`, and exactly one call to
`loadWatchedCoins` (with no argument) and one console line at each of these instants. -/
theorem page_ticks_on_every_period (envAt : Nat → Env) (n fuel : Nat) (hfuel : n ≤ fuel)
    (hp : ∀ t, ∃ r, (envAt t).loadWatchedCoins = .value (.function (.returns r))) :
    tickTimes (page envAt (30000 * n) fuel).trace
        = (List.range (n + 1)).map (fun k => 30000 * k) ∧
      callsTo "loadWatchedCoins" (page envAt (30000 * n) fuel).trace
        = (List.range (n + 1)).map (fun k => (30000 * k, [])) ∧
      logLines (page envAt (30000 * n) fuel).trace
        = (List.range (n + 1)).map (fun k => (30000 * k, "Updating dashboard data...")) := by
  obtain ⟨r, hr⟩ := hp 0
  have hpage : (page envAt (30000 * n) fuel).trace
      = ([(0, Event.enter Fn.readyHandler)] ++ (tickCalled 0
          ++ [(0, .register (pollTimer 0)), (0, .leave .readyHandler)])) ++ pollTrace 0 n := by
    have := loop_poll envAt hp n 0 fuel 0
      ((0, .enter .readyHandler) :: tickCalled 0
          ++ [(0, .register (pollTimer 0)), (0, .leave .readyHandler)]) hfuel
    simp only [Nat.zero_add, Nat.mul_one] at this
    rw [page, ready_returns envAt r hr]
    simpa [pollTimer] using this
  rw [hpage]
  refine ⟨?_, ?_, ?_⟩
  · rw [tickTimes_append, tickTimes_pollTrace, List.range_succ_eq_map]
    simp [tickTimes, tickCalled, Function.comp_def]
    intro a _; ring
  · rw [callsTo_append, callsTo_pollTrace, List.range_succ_eq_map]
    simp [callsTo, tickCalled, Function.comp_def]
    intro a _; ring
  · rw [logLines_append, logLines_pollTrace, List.range_succ_eq_map]
    simp [logLines, tickCalled, Function.comp_def]
    intro a _; ring

theorem page_ticks_on_every_period_witness :
    (2 ≤ 2 ∧ ∀ t, ∃ r, ((constEnv okLoader) t).loadWatchedCoins
        = .value (.function (.returns r))) ∧
      tickTimes (page (constEnv okLoader) (30000 * 2) 2).trace
        = (List.range (2 + 1)).map (fun k => 30000 * k) ∧
      callsTo "loadWatchedCoins" (page (constEnv okLoader) (30000 * 2) 2).trace
        = (List.range (2 + 1)).map (fun k => (30000 * k, [])) ∧
      logLines (page (constEnv okLoader) (30000 * 2) 2).trace
        = (List.range (2 + 1)).map (fun k => (30000 * k, "Updating dashboard data...")) :=
  ⟨⟨by decide, fun _ => ⟨.undefined, rfl⟩⟩,
    page_ticks_on_every_period (constEnv okLoader) 2 2 (by decide)
      (fun _ => ⟨.undefined, rfl⟩)⟩

/-- C8: the guard is evaluated at every tick on the environment of that instant: in every page
run, whatever the environment is at each instant, the calls to `loadWatchedCoins` are exactly
the ticks at whose instant the binding is a function (each with no argument), where being
present is what the `typeof` guard tests; with the loader absent at `t = 0` and defined
afterwards, the ticks are at 0 and 30000 and the only call is at 30000. -/
theorem loader_called_exactly_at_ticks_where_present :
    (∀ (envAt : Nat → Env) (horizon fuel : Nat),
      callsTo "loadWatchedCoins" (page envAt horizon fuel).trace
        = ((tickTimes (page envAt horizon fuel).trace).filter
            fun t => present (envAt t)).map (fun t => (t, []))) ∧
      (∀ env : Env, present env = true
        ↔ typeOf "loadWatchedCoins" env.loadWatchedCoins = .ok "function") ∧
      tickTimes (page lateLoader 30000 1).trace = [0, 30000] ∧
      callsTo "loadWatchedCoins" (page lateLoader 30000 1).trace = [(30000, [])] := by
  refine ⟨?_, ?_, by decide, by decide⟩
  · intro envAt horizon fuel
    apply loop_calls
    obtain ⟨h1, h2⟩ := hostInvoke_ticks .readyHandler (envAt 0) freshWorld
    rw [ready, h1, h2]
    by_cases hp : present (envAt 0) = true
    · simp [hp, freshWorld, tickTimes, callsTo]
    · simp [hp, freshWorld, tickTimes, callsTo]
  · intro env
    rcases env with ⟨b⟩
    rcases b with _ | _ | v
    · simp [present, typeOf]
    · simp [present, typeOf]
    · rcases v with d | body
      · cases d <;> simp [present, typeOf]
      · simp [present, typeOf]

/-- C9: when `loadWatchedCoins` is a function that throws `e` at the ready signal, the ready
handler completes by throwing `e` without touching the timer table or registering anything,
and every page run, whatever the horizon and fuel, ends with an empty timer table, no
registration and exactly one tick, at `t = 0`. -/
theorem failing_initial_tick_stops_polling (envAt : Nat → Env) (e : Thrown)
    (h : (envAt 0).loadWatchedCoins = .value (.function (.throws e))) :
    (∀ w : World, (readyHandler (envAt 0) w).2 = .throw e ∧
        (readyHandler (envAt 0) w).1.timers = w.timers ∧
        registrations (readyHandler (envAt 0) w).1.trace = registrations w.trace) ∧
      ∀ horizon fuel : Nat,
        (page envAt horizon fuel).timers = [] ∧
        registrations (page envAt horizon fuel).trace = [] ∧
        tickTimes (page envAt horizon fuel).trace = [0] := by
  have hc : tickCompletion (envAt 0) = .throw e := by simp [tickCompletion, h]
  have hr : ready envAt
      = { now := 0, trace := (0, .enter .readyHandler) :: tickAborted 0 ++ [(0, .uncaught e)],
          timers := [] } := by
    simp [ready, hostInvoke, runFn, readyHandler_throw _ _ e hc, freshWorld, emit,
      tickEvents, h]
  refine ⟨?_, ?_⟩
  · intro w
    rw [readyHandler_throw _ w e hc]
    refine ⟨rfl, rfl, ?_⟩
    rw [show ((w.now, Event.enter Fn.readyHandler) :: tickEvents (envAt 0) w.now)
        = [(w.now, Event.enter Fn.readyHandler)] ++ tickEvents (envAt 0) w.now from rfl]
    simp only [registrations_append, registrations_tickEvents]
    simp [registrations]
  · intro horizon fuel
    rw [page, loop_no_timers envAt horizon fuel _ (by rw [hr]), hr]
    simp [registrations, tickTimes, tickAborted]

theorem failing_initial_tick_stops_polling_witness :
    ((constEnv badLoader) 0).loadWatchedCoins
        = .value (.function (.throws (.raised (.string "boom")))) ∧
      (∀ w : World, (readyHandler ((constEnv badLoader) 0) w).2
          = .throw (.raised (.string "boom")) ∧
        (readyHandler ((constEnv badLoader) 0) w).1.timers = w.timers ∧
        registrations (readyHandler ((constEnv badLoader) 0) w).1.trace
          = registrations w.trace) ∧
      ∀ horizon fuel : Nat,
        (page (constEnv badLoader) horizon fuel).timers = [] ∧
        registrations (page (constEnv badLoader) horizon fuel).trace = [] ∧
        tickTimes (page (constEnv badLoader) horizon fuel).trace = [0] :=
  ⟨rfl, failing_initial_tick_stops_polling (constEnv badLoader) _ rfl⟩

end Dashboard
